import Mathlib

/-!
Verification of the quickstore write-back caching façade.

This file gives a shallow embedding, in Lean, of the core of the
quickstore repository (Go): the `Key` parsing utility (`key.go`), the
error taxonomy (`error.go`), the per-shard node state machine with its
LRU-backed cache map, ring-buffer mutation queue, per-key single-flight
condition set and flush worker (`node.go`), and the dispatcher-level
`Store.DoesItemExist` (`store.go`).  Pure functions are translated
directly; the points where the Go code releases the node mutex and
other threads may interleave are made explicit parameters (the cache
contents observed at re-acquisition, the outcome of the remote call,
the trace of cache snapshots seen by the busy-wait loop).  Go strings
are modelled as `List Char`; DynamoDB attribute maps are modelled as
association lists of string pairs, since the core only inspects their
emptiness and threads them through otherwise.
-/

set_option autoImplicit false

namespace Quickstore

/-! ## Keys (`key.go`) -/

/-- The delimiter between the parent path and the final kind+identifier
segment of a key string (`delim = '.'` in `key.go`). -/
def delim : Char := '.'

/-- `Key` from `key.go`: `Parent`, `Kind`, `Identifier`.  Go strings are
modelled as `List Char`. -/
structure Key where
  parent : List Char
  kind : List Char
  identifier : List Char
deriving DecidableEq, Repr

/-- `Key.Incomplete`: a key is incomplete when its kind is empty. -/
def Key.incomplete (k : Key) : Bool :=
  k.kind = []

/-- `Key.String` from `key.go`: empty for an incomplete key; otherwise
`kind ++ identifier`, prefixed by `parent` and the delimiter when the
parent is nonempty. -/
def keyString (k : Key) : List Char :=
  if k.kind = [] then []
  else if k.parent = [] then k.kind ++ k.identifier
  else k.parent ++ delim :: (k.kind ++ k.identifier)

/-- `strings.LastIndexByte`: index of the last occurrence of `c` in `s`,
or `none` when `c` does not occur (Go returns `-1`). -/
def lastIndexByte : List Char → Char → Option Nat
  | [], _ => none
  | a :: rest, c =>
    match lastIndexByte rest c with
    | some i => some (i + 1)
    | none => if a = c then some 0 else none

/-- `divideKey` from `key.go`: split `s` at the last delimiter into the
parent part and the final segment; when there is no delimiter the parent
part is empty. -/
def divideKey (s : List Char) : List Char × List Char :=
  match lastIndexByte s delim with
  | none => ([], s)
  | some p => (s.take p, s.drop (p + 1))

/-- The kind registry (`Registry.kinds` in the source is a process-wide
set of registered kind strings); it is passed explicitly here. -/
abbrev Registry := List (List Char)

/-- The scan loop of `Parse`: `for i := 1; i <= len(rear); i++`, returning
the first (hence shortest) `i` such that `rear[:i]` is a registered kind.
Rendered as a first-match search over the index list `[1, ..., len rear]`,
which visits the same indices in the same order as the source loop. -/
def scanKinds (reg : Registry) (rear : List Char) : Option Nat :=
  (List.range' 1 rear.length).find? (fun i => decide (rear.take i ∈ reg))

/-- `Parse` from `key.go`: split the input at the last delimiter, then
find the first prefix of the final segment that is a registered kind; on
success the remainder of the segment is the identifier, otherwise the
zero (incomplete) key is returned. -/
def parse (reg : Registry) (s : List Char) : Key :=
  let fr := divideKey s
  match scanKinds reg fr.2 with
  | some i => ⟨fr.1, fr.2.take i, fr.2.drop i⟩
  | none => ⟨[], [], []⟩

/-- Formalisation of the spec sentence for C3 (the spec words, not the
source): the length of the longest prefix of `rear` that is a registered
kind.  Compared against `parse`, which the source implements with a
first-match (shortest) scan. -/
def longestRegKindLen (reg : Registry) (rear : List Char) : Option Nat :=
  ((List.range' 1 rear.length).filter (fun i => decide (rear.take i ∈ reg))).getLast?

/-! ## Errors (`error.go`)

Every `newErrXxx` constructor in `error.go` returns a **pointer**
(`*ErrXxx`).  Go's dynamic error type therefore records both the struct
type and whether the value is a pointer; a type assertion to the value
type `ErrXxx` fails on a `*ErrXxx`.  We model the dynamic type as the
pair of an error-code tag and an `isPtr` flag. -/

/-- The error kinds of `error.go` (plus `Closed`, see `newErrClosed`). -/
inductive ErrCode where
  | serializeException
  | itemExisted
  | itemNotExisted
  | tooManyRequests
  | dynamoDBException
  | closed
deriving DecidableEq, Repr

/-- A Go error value as the node operations observe it: its dynamic
type (code tag + pointer flag) and the key it carries, when any. -/
structure GoErr where
  code : ErrCode
  isPtr : Bool
  key : Option Key := none
deriving DecidableEq, Repr

/-- `newErrItemExisted` returns `&ErrItemExisted{...}` — a pointer. -/
def newErrItemExisted (key : Key) : GoErr := ⟨.itemExisted, true, some key⟩

/-- `newErrItemNotExisted` returns `&ErrItemNotExisted{...}` — a pointer. -/
def newErrItemNotExisted (key : Key) : GoErr := ⟨.itemNotExisted, true, some key⟩

/-- `newErrTooManyRequests` returns `&ErrTooManyRequests{...}` — a pointer. -/
def newErrTooManyRequests : GoErr := ⟨.tooManyRequests, true, none⟩

/-- `newErrDynamoDBException` returns `&ErrDynamoDBException{...}` — a pointer. -/
def newErrDynamoDBException : GoErr := ⟨.dynamoDBException, true, none⟩

/-- Modelled from the spec: `newErrClosed` is called by `node.go` but its
definition is not among the provided sources; §7 of the spec lists the
error kind `Closed` ("operation submitted after close()"), so it is
modelled as a constructor of a pointer error with that code. -/
def newErrClosed : GoErr := ⟨.closed, true, none⟩

/-! ## Attribute maps, mutations, cache entries -/

/-- A DynamoDB attribute map (`map[string]*dynamodb.AttributeValue`),
modelled as an association list; the core only tests emptiness and
threads these maps through. -/
abbrev AVMap := List (String × String)

/-- `opCode` from `node.go`. -/
inductive OpCode where
  | insert
  | upsert
  | update
  | delete
deriving DecidableEq, Repr

/-- `mutation` from `node.go`: an opcode and the encoded attributes. -/
structure Mutation where
  op : OpCode
  avs : AVMap
deriving DecidableEq, Repr

/-- The Go zero value of `mutation` (opcode 0 = insert, nil map). -/
instance : Inhabited Mutation := ⟨⟨.insert, []⟩⟩

/-- `state` from `node.go`: `stateNotExist`, `stateExist`, `stateBusy`. -/
inductive EntryState where
  | notExist
  | exist
  | busy
deriving DecidableEq, Repr

/-- `cacheValue` from `node.go`: a state and the attributes (nil — here
`[]` — except when the state is `exist`). -/
structure CacheValue where
  state : EntryState
  avs : AVMap := []
deriving DecidableEq, Repr

/-- The LRU cache contents as a key-value map (association list).  The
source wraps `simplelru.LRU`, an external library the spec treats as a
collaborator; recency bookkeeping and eviction do not matter to the
claims proved here, so only the map view (`Get`/`Add`/`Remove`) is
modelled. -/
abbrev CacheMap := List (Key × CacheValue)

/-- Map lookup on an association list. -/
def lookupKey {α : Type} : List (Key × α) → Key → Option α
  | [], _ => none
  | (k, v) :: rest, key => if k = key then some v else lookupKey rest key

/-- `cache.Get` (value part). -/
def cacheGet (m : CacheMap) (key : Key) : Option CacheValue :=
  lookupKey m key

/-- Remove the binding for `key` from an association list. -/
def eraseKey {α : Type} : List (Key × α) → Key → List (Key × α)
  | [], _ => []
  | (k, v) :: rest, key =>
    if k = key then eraseKey rest key else (k, v) :: eraseKey rest key

/-- `cache.Add`: insert or overwrite the entry for `key`. -/
def cacheAdd (m : CacheMap) (key : Key) (v : CacheValue) : CacheMap :=
  (key, v) :: eraseKey m key

/-- `cache.Remove`. -/
def cacheRemove (m : CacheMap) (key : Key) : CacheMap :=
  eraseKey m key

/-! ## The ring-buffer queue (`node.go`, `queue`)

`push` and `pop` below are the bodies executed once the `notFull` /
`notEmpty` wait loops have exited; blocking is modelled at the call
sites (an operation that would wait is reported as blocked). -/

/-- `queue` from `node.go`: a circular buffer `muts` of length `cap`
with `len` stored mutations, read head `l` and write head `r`. -/
structure Queue where
  muts : List Mutation
  cap : Nat
  len : Nat
  l : Nat
  r : Nat
deriving DecidableEq, Repr

/-- `queue.full`. -/
def queueFull (q : Queue) : Bool := q.len = q.cap

/-- `queue.empty`. -/
def queueEmpty (q : Queue) : Bool := q.len = 0

/-- The body of `queue.push` after the `notFull` wait loop: write at `r`,
advance `r` cyclically, increment `len`. -/
def queuePush (q : Queue) (m : Mutation) : Queue :=
  { q with
    muts := q.muts.set q.r m
    r := if q.r + 1 = q.cap then 0 else q.r + 1
    len := q.len + 1 }

/-- The body of `queue.pop` after the `notEmpty` wait loop: read at `l`,
advance `l` cyclically, decrement `len`. -/
def queuePop (q : Queue) : Mutation × Queue :=
  (q.muts.getD q.l default,
   { q with
     l := if q.l + 1 = q.cap then 0 else q.l + 1
     len := q.len - 1 })

/-- The logical contents of the ring buffer, oldest first: the `len`
slots starting at `l`, cyclically. -/
def queueContents (q : Queue) : List Mutation :=
  (List.range q.len).map (fun i => q.muts.getD ((q.l + i) % q.cap) default)

/-- The structural invariant of the ring buffer: the backing array has
length `cap`, `len` is at most `cap`, both heads lie in `[0, cap)`, and
the write head sits `len` slots after the read head (cyclically). -/
def QueueWF (q : Queue) : Prop :=
  q.muts.length = q.cap ∧ q.len ≤ q.cap ∧ q.l < q.cap ∧ q.r < q.cap ∧
    q.r = (q.l + q.len) % q.cap

instance (q : Queue) : Decidable (QueueWF q) := by
  unfold QueueWF; infer_instance

/-! ## The per-key single-flight condition set (`node.go`, `condSet`) -/

/-- `condSet` from `node.go`: the entries map each key with in-flight
waiters to its wait count (`condCounter.cnt`); `cap` bounds the number
of distinct keys. -/
structure CondSet where
  entries : List (Key × Nat)
  cap : Nat
deriving DecidableEq, Repr

/-- `condSet.full`. -/
def condSetFull (c : CondSet) : Bool := c.entries.length = c.cap

/-- Replace the count stored for `key`. -/
def setCount : List (Key × Nat) → Key → Nat → List (Key × Nat)
  | [], _, _ => []
  | (k, v) :: rest, key, n =>
    if k = key then (k, n) :: rest else (k, v) :: setCount rest key n

/-- Remove the entry for `key`. -/
def removeCount (entries : List (Key × Nat)) (key : Key) : List (Key × Nat) :=
  eraseKey entries key

/-- The part of `condSet.waitAndSignal` that runs before `cc.cond.Wait()`:
if the key has no entry and the set is full, return `none` (the Go code
returns `false` without blocking); otherwise insert a fresh entry with
count 1, or increment the existing count, and block (returning the
updated set the sleeping thread leaves behind). -/
def waitAndSignalEnter (c : CondSet) (key : Key) : Option CondSet :=
  match lookupKey c.entries key with
  | none =>
    if condSetFull c then none
    else some { c with entries := (key, 1) :: c.entries }
  | some cnt => some { c with entries := setCount c.entries key (cnt + 1) }

/-- The part of `condSet.waitAndSignal` that runs after `cc.cond.Wait()`
returns: decrement the count and pass the signal on when other waiters
remain, else delete the entry; `waitAndSignal` then returns `true`. -/
def waitAndSignalWake (c : CondSet) (key : Key) : CondSet :=
  match lookupKey c.entries key with
  | some cnt =>
    if 1 < cnt then { c with entries := setCount c.entries key (cnt - 1) }
    else { c with entries := removeCount c.entries key }
  | none => c

/-! ## Key encoding (`node.go`) -/

/-- The reserved attribute name holding the canonical key string. -/
def keyField : String := "_key"

/-- `encodeItem`: the marshalled user value (taken here as an already
marshalled attribute map, value marshalling being out of scope per §1 of
the spec) extended with the encoded key under `_key`.
`Key.MarshalDynamoDBAttributeValue` never fails, so no error case. -/
def encodeItem (key : Key) (value : AVMap) : AVMap :=
  value ++ [(keyField, String.mk (keyString key))]

/-- `encodeKey`: a fresh attribute map holding only the encoded key. -/
def encodeKey (key : Key) : AVMap :=
  [(keyField, String.mk (keyString key))]

/-! ## Single-flight cache population (`node.go`, `getOrSaveCache`)

The Go function runs under the node mutex, releases it around the
remote `GetItem`, and may block on the per-key condition variable while
the entry is `Busy`.  The interleavings of other threads are inputs
here: `remote` is the outcome of the `GetItem` call if one is issued,
`reacq` is the cache contents observed when the mutex is re-acquired
after the call, and the busy-wait loop reads one cache snapshot per
iteration from the list it is given (the first snapshot is the cache at
entry).  An exhausted snapshot list means the thread is still parked on
the condition variable. -/

/-- The outcome of `getOrSaveCache`: a returned entry or an error,
together with the final cache and condition-set contents and whether the
remote `GetItem` was issued; or still blocked on the per-key condition
variable (carrying the condition-set contents left behind). -/
inductive GosOutcome where
  | ok (cache : CacheMap) (conds : CondSet) (v : CacheValue) (remoteCalled : Bool)
  | fail (cache : CacheMap) (conds : CondSet) (e : GoErr) (remoteCalled : Bool)
  | blocked (conds : CondSet)
deriving DecidableEq, Repr

/-- The tail of `getOrSaveCache` after the lookup loop found a miss:
install the `Busy` sentinel, drop the mutex, issue the `GetItem`
(whose outcome is `remote`), re-acquire the mutex (observing `reacq`).
On error the sentinel is removed and a DynamoDB error returned.  On
success the fetched entry is `notExist` for an empty response and
`exist` with the returned attributes otherwise; it is stored and
returned only when the slot is still `Busy` or absent, else the entry
found in the slot is returned unchanged.  The deferred
`keyConds.signal` wakes a waiter but leaves the entries unchanged. -/
def gosAfterMiss (key : Key) (remote : Except GoErr AVMap) (reacq : CacheMap)
    (cs : CondSet) : GosOutcome :=
  match remote with
  | .error _ => .fail (cacheRemove reacq key) cs newErrDynamoDBException true
  | .ok item =>
    let value : CacheValue :=
      if item.isEmpty then { state := .notExist } else { state := .exist, avs := item }
    match cacheGet reacq key with
    | none => .ok (cacheAdd reacq key value) cs value true
    | some c =>
      if c.state = .busy then .ok (cacheAdd reacq key value) cs value true
      else .ok reacq cs c true

/-- `getOrSaveCache`: the lookup loop over successive cache snapshots.
A hit with a non-`Busy` state returns it at once; a miss falls through
to `gosAfterMiss`; a `Busy` hit calls `waitAndSignal`, failing with
`TooManyRequests` when it refuses, blocking when no further snapshot is
available, and otherwise re-looping after the wake-up bookkeeping. -/
def getOrSaveCache (key : Key) (remote : Except GoErr AVMap) (reacq : CacheMap) :
    CondSet → List CacheMap → GosOutcome
  | cs, [] => .blocked cs
  | cs, c :: rest =>
    match cacheGet c key with
    | none => gosAfterMiss key remote reacq cs
    | some v =>
      if v.state = .busy then
        match waitAndSignalEnter cs key with
        | none => .fail c cs newErrTooManyRequests false
        | some cs' =>
          match rest with
          | [] => .blocked cs'
          | c2 :: rest2 => getOrSaveCache key remote reacq (waitAndSignalWake cs' key) (c2 :: rest2)
      else .ok c cs v false

/-! ## The node state machine (`node.go`) -/

/-- The mutable per-shard state the node mutex protects: the `closed`
flag, the cache, the mutation queue, the condition set, and the flush
threshold (immutable after construction, kept here for convenience). -/
structure NodeState where
  closed : Bool
  cache : CacheMap
  queue : Queue
  conds : CondSet
  threshold : Nat
deriving DecidableEq, Repr

/-- `node.mutate`: push the mutation (the push blocks while the queue is
full — reported as `none`), signal the flush worker when the queue
length has reached the threshold, and overwrite the cache entry:
`exist` with the mutation's attributes for insert/upsert/update,
`notExist` for delete.  Returns the new state and whether the flush
condition was signalled. -/
def nodeMutate (st : NodeState) (key : Key) (m : Mutation) :
    Option (NodeState × Bool) :=
  if queueFull st.queue then none
  else
    let q' := queuePush st.queue m
    let signaled : Bool := st.threshold ≤ q'.len
    let cache' :=
      match m.op with
      | .insert => cacheAdd st.cache key { state := .exist, avs := m.avs }
      | .upsert => cacheAdd st.cache key { state := .exist, avs := m.avs }
      | .update => cacheAdd st.cache key { state := .exist, avs := m.avs }
      | .delete => cacheAdd st.cache key { state := .notExist }
    some ({ st with queue := q', cache := cache' }, signaled)

/-- The outcome of a mutating public operation: the final node state,
the returned error if any, whether the flush condition was signalled,
and whether a remote `GetItem` was issued; or blocked (on the per-key
condition variable or on a full queue). -/
inductive OpResult where
  | done (st : NodeState) (err : Option GoErr) (flushSignaled : Bool) (remoteCalled : Bool)
  | blocked
deriving DecidableEq, Repr

/-- `node.insert`: encode, then under the mutex: fail with `Closed` when
closed; populate the cache for the key; fail with `ItemExisted` when the
cached state is `exist`; otherwise enqueue an insert mutation. -/
def nodeInsert (st : NodeState) (key : Key) (value : AVMap)
    (remote : Except GoErr AVMap) (reacq : CacheMap) (laterSnaps : List CacheMap) :
    OpResult :=
  let avs := encodeItem key value
  if st.closed then .done st (some newErrClosed) false false
  else
    match getOrSaveCache key remote reacq st.conds (st.cache :: laterSnaps) with
    | .blocked _ => .blocked
    | .fail cache' cs' e rc => .done { st with cache := cache', conds := cs' } (some e) false rc
    | .ok cache' cs' v rc =>
      if v.state = .exist then
        .done { st with cache := cache', conds := cs' } (some (newErrItemExisted key)) false rc
      else
        match nodeMutate { st with cache := cache', conds := cs' } key ⟨.insert, avs⟩ with
        | none => .blocked
        | some (st', sig) => .done st' none sig rc

/-- `node.upsert`: no existence check — fail with `Closed` when closed,
else enqueue an upsert mutation. -/
def nodeUpsert (st : NodeState) (key : Key) (value : AVMap) : OpResult :=
  let avs := encodeItem key value
  if st.closed then .done st (some newErrClosed) false false
  else
    match nodeMutate st key ⟨.upsert, avs⟩ with
    | none => .blocked
    | some (st', sig) => .done st' none sig false

/-- `node.update`: like insert but failing with `ItemNotExisted` when the
cached state is `notExist`. -/
def nodeUpdate (st : NodeState) (key : Key) (value : AVMap)
    (remote : Except GoErr AVMap) (reacq : CacheMap) (laterSnaps : List CacheMap) :
    OpResult :=
  let avs := encodeItem key value
  if st.closed then .done st (some newErrClosed) false false
  else
    match getOrSaveCache key remote reacq st.conds (st.cache :: laterSnaps) with
    | .blocked _ => .blocked
    | .fail cache' cs' e rc => .done { st with cache := cache', conds := cs' } (some e) false rc
    | .ok cache' cs' v rc =>
      if v.state = .notExist then
        .done { st with cache := cache', conds := cs' } (some (newErrItemNotExisted key)) false rc
      else
        match nodeMutate { st with cache := cache', conds := cs' } key ⟨.update, avs⟩ with
        | none => .blocked
        | some (st', sig) => .done st' none sig rc

/-- `node.delete`: no existence check — fail with `Closed` when closed,
else enqueue a delete mutation carrying only the encoded key. -/
def nodeDelete (st : NodeState) (key : Key) : OpResult :=
  let avs := encodeKey key
  if st.closed then .done st (some newErrClosed) false false
  else
    match nodeMutate st key ⟨.delete, avs⟩ with
    | none => .blocked
    | some (st', sig) => .done st' none sig false

instance {ε α : Type} [DecidableEq ε] [DecidableEq α] : DecidableEq (Except ε α) := fun x y =>
  match x, y with
  | .error a, .error b =>
    if h : a = b then .isTrue (congrArg _ h) else .isFalse (fun hh => h (Except.error.inj hh))
  | .ok a, .ok b =>
    if h : a = b then .isTrue (congrArg _ h) else .isFalse (fun hh => h (Except.ok.inj hh))
  | .error _, .ok _ => .isFalse Except.noConfusion
  | .ok _, .error _ => .isFalse Except.noConfusion

/-- The outcome of `node.get`: the final node state and either the
item's attribute map or an error; or blocked. -/
inductive GetResult where
  | done (st : NodeState) (res : Except GoErr AVMap) (remoteCalled : Bool)
  | blocked
deriving DecidableEq, Repr

/-- `node.get`: populate the cache for the key (note: **no** check of the
`closed` flag in the source), fail with `ItemNotExisted` when the
resulting state is `notExist`, else return the cached attributes. -/
def nodeGet (st : NodeState) (key : Key)
    (remote : Except GoErr AVMap) (reacq : CacheMap) (laterSnaps : List CacheMap) :
    GetResult :=
  match getOrSaveCache key remote reacq st.conds (st.cache :: laterSnaps) with
  | .blocked _ => .blocked
  | .fail cache' cs' e rc => .done { st with cache := cache', conds := cs' } (.error e) rc
  | .ok cache' cs' v rc =>
    if v.state = .notExist then
      .done { st with cache := cache', conds := cs' } (.error (newErrItemNotExisted key)) rc
    else .done { st with cache := cache', conds := cs' } (.ok v.avs) rc

/-! ## Multi-key cache population (`node.go`, `getOrSaveCacheMulti`)

`fetchMulti` loops over batched `BatchGetItem` calls; its result is
determined by the remote client's responses, so it enters the model as
the parameter `fetched` (either an error or the map key → item for the
keys present remotely).  `keys` is a Go map iterated in some order; the
model takes the iteration order as a list.  `reacq` is the cache
observed after the mutex is re-acquired. -/

/-- Replace or append a binding (Go map assignment `items[key] = v`). -/
def setItem {α : Type} (items : List (Key × α)) (key : Key) (v : α) : List (Key × α) :=
  if (lookupKey items key).isSome then setAssoc items key v else items ++ [(key, v)]
where
  setAssoc {α : Type} : List (Key × α) → Key → α → List (Key × α)
    | [], _, _ => []
    | (k, w) :: rest, key, v =>
      if k = key then (k, v) :: rest else (k, w) :: setAssoc rest key v

/-- The second pass of `getOrSaveCacheMulti`, over the requested keys:
keys whose slot is absent or `Busy` and that were fetched get the
fetched entry (`exist` with the item, or `notExist` when missing from
the response) installed in the cache and recorded; keys whose slot now
holds a non-`Busy` entry take that fresher entry instead. -/
def gosMultiMerge (fetched : List (Key × AVMap)) (notCached : List Key) :
    List Key → CacheMap → List (Key × CacheValue) → CacheMap × List (Key × CacheValue)
  | [], cache, items => (cache, items)
  | key :: rest, cache, items =>
    match cacheGet cache key with
    | some c =>
      if c.state = .busy then
        if key ∈ notCached then
          let cv : CacheValue :=
            match lookupKey fetched key with
            | some avs => { state := .exist, avs := avs }
            | none => { state := .notExist }
          gosMultiMerge fetched notCached rest (cacheAdd cache key cv) (setItem items key cv)
        else gosMultiMerge fetched notCached rest cache items
      else gosMultiMerge fetched notCached rest cache (setItem items key c)
    | none =>
      if key ∈ notCached then
        let cv : CacheValue :=
          match lookupKey fetched key with
          | some avs => { state := .exist, avs := avs }
          | none => { state := .notExist }
        gosMultiMerge fetched notCached rest (cacheAdd cache key cv) (setItem items key cv)
      else gosMultiMerge fetched notCached rest cache items

/-- `getOrSaveCacheMulti`: partition the keys into cached (non-`Busy`
hit) and not cached; when nothing is missing return the hits, otherwise
drop the mutex, fetch the missing keys (`fetched`), re-acquire the
mutex (observing `reacq`) and merge. -/
def getOrSaveCacheMulti (st : NodeState) (keys : List Key)
    (fetched : Except GoErr (List (Key × AVMap))) (reacq : CacheMap) :
    Except GoErr (CacheMap × List (Key × CacheValue)) :=
  let notCached := keys.filter (fun k =>
    match cacheGet st.cache k with
    | none => true
    | some c => c.state = .busy)
  let items1 := keys.foldl (fun acc k =>
    match cacheGet st.cache k with
    | none => acc
    | some c => if c.state = .busy then acc else setItem acc k c) []
  if notCached.isEmpty then .ok (st.cache, items1)
  else
    match fetched with
    | .error e => .error e
    | .ok output => .ok (gosMultiMerge output notCached keys reacq items1)

/-- `node.getMulti`: populate the cache for all keys (again **no** check
of the `closed` flag in the source), then keep the entries whose state
is `exist`. -/
def nodeGetMulti (st : NodeState) (keys : List Key)
    (fetched : Except GoErr (List (Key × AVMap))) (reacq : CacheMap) :
    NodeState × Except GoErr (List (Key × AVMap)) :=
  match getOrSaveCacheMulti st keys fetched reacq with
  | .error e => ({ st with cache := reacq }, .error e)
  | .ok (cache', multiCached) =>
    ({ st with cache := cache' },
     .ok (multiCached.foldl (fun acc p =>
       if p.2.state = .exist then setItem acc p.1 p.2.avs else acc) []))

/-! ## `Store.DoesItemExist` (`store.go`) -/

/-- The type assertion `err.(ErrItemNotExisted)` in `Store.DoesItemExist`:
it succeeds only when the dynamic type of `err` is the **value** type
`ErrItemNotExisted` — not the pointer type the constructors produce. -/
def isValueErrItemNotExisted (e : GoErr) : Bool :=
  e.code = .itemNotExisted && !e.isPtr

/-- The outcome of `Store.DoesItemExist`: final node state and the
`(bool, error)` pair; or blocked. -/
inductive ExistResult where
  | done (st : NodeState) (exists_ : Bool) (err : Option GoErr)
  | blocked
deriving DecidableEq, Repr

/-- `Store.DoesItemExist`: delegate to the key's node's `get`; on error,
return `(false, nil)` when the type assertion to the value type
`ErrItemNotExisted` succeeds, else pass the error through with `false`;
on success return `(true, nil)`. -/
def doesItemExist (st : NodeState) (key : Key)
    (remote : Except GoErr AVMap) (reacq : CacheMap) (laterSnaps : List CacheMap) :
    ExistResult :=
  match nodeGet st key remote reacq laterSnaps with
  | .blocked => .blocked
  | .done st' (.ok _) _ => .done st' true none
  | .done st' (.error e) _ =>
    if isValueErrItemNotExisted e then .done st' false none
    else .done st' false (some e)

/-! ## The flush worker's failure path (`node.go`, `flush`)

One iteration of the worker drains the whole queue into a local batch
and executes the mutations in order; `execute` issues one remote call
per mutation, so its outcome is the oracle `exec`.  When some mutation
fails, the worker re-acquires the mutex (the queue may have received
further pushes meanwhile — `queueAtCrash`), sets `closed`, drains the
queue into the same local slice, releases the mutex and panics.  The
`panic` call's single argument is the `execute` error; the slice holding
the failed and drained mutations is a local variable that the panic
value does not reference. -/

/-- What a Go `panic` value may carry in this model: the error alone (as
the source does), or an error together with a batch of mutations (what
the spec describes). -/
inductive PanicPayload where
  | errOnly (e : GoErr)
  | errWithBatch (e : GoErr) (batch : List Mutation)
deriving DecidableEq, Repr

/-- Whether a panic payload carries any mutations. -/
def payloadCarriesMuts : PanicPayload → Bool
  | .errOnly _ => false
  | .errWithBatch _ _ => true

/-- The inner execution loop of `flush`: run `execute` on each mutation
in order; at the first failure return the slice from the failed mutation
on (`muts = muts[i:]`) together with the error; `none` when the whole
batch succeeds. -/
def execBatch (exec : Mutation → Option GoErr) :
    List Mutation → Option (List Mutation × GoErr)
  | [] => none
  | m :: rest =>
    match exec m with
    | some e => some (m :: rest, e)
    | none => execBatch exec rest

/-- The state of the node the crash handler leaves behind, and the panic. -/
structure CrashReport where
  closedAfter : Bool
  drained : List Mutation
  payload : PanicPayload
deriving DecidableEq, Repr

/-- The failure path of `flush` (the code after the outer-loop break):
given the batch being executed and the queue contents at the time the
mutex is re-acquired, when `execBatch` fails the node is marked closed,
the queue is drained (pop until empty) onto the remainder of the batch,
and the worker panics with the `execute` error as the payload. -/
def flushCrash (exec : Mutation → Option GoErr) (batch : List Mutation)
    (queueAtCrash : Queue) : Option CrashReport :=
  match execBatch exec batch with
  | none => none
  | some (remainder, e) =>
    some { closedAfter := true
           drained := remainder ++ queueContents queueAtCrash
           payload := .errOnly e }

/-! ## Sequences of queue operations (for the FIFO refinement) -/

/-- A producer/consumer event on the queue. -/
inductive QOp where
  | qpush (m : Mutation)
  | qpop
deriving DecidableEq, Repr

/-- Run a sequence of queue events against the ring buffer.  An event
that would block (push on a full queue, pop on an empty queue) parks the
thread, so the run stops there.  Returns the final queue and the popped
mutations in order. -/
def runRing : Queue → List QOp → Queue × List Mutation
  | q, [] => (q, [])
  | q, .qpush m :: rest =>
    if queueFull q then (q, []) else runRing (queuePush q m) rest
  | q, .qpop :: rest =>
    if queueEmpty q then (q, [])
    else
      let p := queuePop q
      let pr := runRing p.2 rest
      (pr.1, p.1 :: pr.2)

/-- The specification queue: a plain list bounded by `cap`, pushed at
the tail and popped at the head, stopping at the first blocked event. -/
def runList (cap : Nat) : List Mutation → List QOp → List Mutation × List Mutation
  | buf, [] => (buf, [])
  | buf, .qpush m :: rest =>
    if buf.length = cap then (buf, []) else runList cap (buf ++ [m]) rest
  | buf, .qpop :: rest =>
    match buf with
    | [] => (buf, [])
    | b :: bs =>
      let pr := runList cap bs rest
      (pr.1, b :: pr.2)

/-- The value component of a `GetResult` (what the caller of `node.get`
observes), discarding the node state. -/
def getResultValue : GetResult → Option (Except GoErr AVMap)
  | .done _ res _ => some res
  | .blocked => none

/-! ## Concrete fixtures used by counterexamples and witnesses -/

/-- A registry holding the kinds `a` and `ab`, of which one is a proper
prefix of the other. -/
def regAB : Registry := [['a'], ['a', 'b']]

/-- A concrete complete key with registered kind `prj`. -/
def k0 : Key := ⟨[], ['p', 'r', 'j'], ['A']⟩

/-- A second concrete key, distinct from `k0`. -/
def k1 : Key := ⟨[], ['p', 'r', 'j'], ['B']⟩

/-- A concrete attribute map. -/
def avs0 : AVMap := [("name", "x")]

/-- An empty ring queue of capacity 4. -/
def q0 : Queue := ⟨List.replicate 4 default, 4, 0, 0, 0⟩

/-- An empty condition set of capacity 4. -/
def cs0 : CondSet := ⟨[], 4⟩

/-- A condition set at capacity 1 holding one waiter for `k0`. -/
def csFullK0 : CondSet := ⟨[(k0, 1)], 1⟩

/-- A closed node whose cache holds `k0` with state `exist`. -/
def stClosed : NodeState := ⟨true, [(k0, ⟨.exist, avs0⟩)], q0, cs0, 20⟩

/-- An open node whose cache holds `k0` with state `notExist`. -/
def stNotExist : NodeState := ⟨false, [(k0, ⟨.notExist, []⟩)], q0, cs0, 20⟩

/-- An open node whose cache holds `k0` with state `exist`. -/
def stExist : NodeState := ⟨false, [(k0, ⟨.exist, avs0⟩)], q0, cs0, 20⟩

/-- A mutation used by the flush-crash scenario. -/
def m0 : Mutation := ⟨.insert, avs0⟩

/-- An execute oracle that fails every remote call. -/
def execFail : Mutation → Option GoErr := fun _ => some newErrDynamoDBException

/-! ## Helper lemmas: association maps -/

theorem lookupKey_eraseKey_ne {α : Type} (m : List (Key × α)) (k k' : Key) (h : k' ≠ k) :
    lookupKey (eraseKey m k) k' = lookupKey m k' := by
  induction m with
  | nil => rfl
  | cons a rest ih =>
    obtain ⟨ak, av⟩ := a
    by_cases hak : ak = k
    · have hk' : ¬ (ak = k') := fun hh => h (hh ▸ hak)
      have hkk' : ¬ (k = k') := fun hh => h hh.symm
      simp [eraseKey, hak, lookupKey, hk', hkk', ih]
    · simp [eraseKey, hak, lookupKey, ih]

theorem cacheGet_cacheAdd_self (m : CacheMap) (k : Key) (v : CacheValue) :
    cacheGet (cacheAdd m k v) k = some v := by
  simp [cacheGet, cacheAdd, lookupKey]

theorem cacheGet_cacheAdd_ne (m : CacheMap) (k k' : Key) (v : CacheValue) (h : k' ≠ k) :
    cacheGet (cacheAdd m k v) k' = cacheGet m k' := by
  have hk : ¬ (k = k') := fun hh => h hh.symm
  simp [cacheGet, cacheAdd, lookupKey, hk, lookupKey_eraseKey_ne m k k' h]

/-! ## Helper lemmas: the ring queue -/

theorem queueContents_length (q : Queue) : (queueContents q).length = q.len := by
  simp [queueContents]

theorem queuePush_cap (q : Queue) (m : Mutation) : (queuePush q m).cap = q.cap := rfl

theorem queueWF_push (q : Queue) (m : Mutation) (h : QueueWF q) (hlt : q.len < q.cap) :
    QueueWF (queuePush q m) := by
  obtain ⟨hml, hlen, hl, hr, hrel⟩ := h
  have hr' : (if q.r + 1 = q.cap then 0 else q.r + 1) = (q.r + 1) % q.cap := by
    by_cases hc : q.r + 1 = q.cap
    · simp [hc, Nat.mod_self]
    · have : q.r + 1 < q.cap := by omega
      simp [hc, Nat.mod_eq_of_lt this]
  refine ⟨by simp [queuePush, hml], by simp only [queuePush]; omega, by simpa [queuePush] using hl, ?_, ?_⟩
  · show (if q.r + 1 = q.cap then 0 else q.r + 1) < q.cap
    by_cases hc : q.r + 1 = q.cap
    · simp [hc]; omega
    · simp [hc]; omega
  · show (if q.r + 1 = q.cap then 0 else q.r + 1) = (q.l + (q.len + 1)) % q.cap
    rw [hr', hrel, Nat.mod_add_mod, Nat.add_assoc]

theorem queueContents_push (q : Queue) (m : Mutation) (h : QueueWF q) (hlt : q.len < q.cap) :
    queueContents (queuePush q m) = queueContents q ++ [m] := by
  obtain ⟨hml, hlen, hl, hr, hrel⟩ := h
  unfold queueContents queuePush
  simp only [List.range_succ, List.map_append, List.map_cons, List.map_nil]
  congr 1
  · -- the untouched prefix: slots for i < len are not the write slot
    apply List.map_congr_left
    intro i hi
    have hi' : i < q.len := List.mem_range.mp hi
    have hne : q.r ≠ (q.l + i) % q.cap := by
      intro heq
      rw [hrel] at heq
      have h2 : q.len % q.cap = i % q.cap :=
        Nat.ModEq.add_left_cancel' q.l heq
      rw [Nat.mod_eq_of_lt (by omega), Nat.mod_eq_of_lt (by omega)] at h2
      omega
    simp [List.getD_eq_getElem?_getD, List.getElem?_set_ne hne]
  · -- the written slot is the new tail
    have hrl : q.r < q.muts.length := by omega
    rw [← hrel]
    simp [List.getD_eq_getElem?_getD, List.getElem?_set_self hrl]

theorem queueWF_pop (q : Queue) (h : QueueWF q) (hne : 0 < q.len) :
    QueueWF (queuePop q).2 := by
  obtain ⟨hml, hlen, hl, hr, hrel⟩ := h
  have hl' : (if q.l + 1 = q.cap then 0 else q.l + 1) = (q.l + 1) % q.cap := by
    by_cases hc : q.l + 1 = q.cap
    · simp [hc, Nat.mod_self]
    · have : q.l + 1 < q.cap := by omega
      simp [hc, Nat.mod_eq_of_lt this]
  refine ⟨by simpa [queuePop] using hml, by simp [queuePop]; omega, ?_, by simpa [queuePop] using hr, ?_⟩
  · show (if q.l + 1 = q.cap then 0 else q.l + 1) < q.cap
    by_cases hc : q.l + 1 = q.cap
    · simp [hc]; omega
    · simp [hc]; omega
  · show q.r = ((if q.l + 1 = q.cap then 0 else q.l + 1) + (q.len - 1)) % q.cap
    rw [hl', Nat.mod_add_mod, hrel]
    congr 1
    omega

theorem queueContents_pop (q : Queue) (h : QueueWF q) (hne : 0 < q.len) :
    queueContents q = (queuePop q).1 :: queueContents (queuePop q).2 := by
  obtain ⟨hml, hlen, hl, hr, hrel⟩ := h
  have hl'' : (if q.l + 1 = q.cap then 0 else q.l + 1) = (q.l + 1) % q.cap := by
    by_cases hc : q.l + 1 = q.cap
    · simp [hc, Nat.mod_self]
    · have : q.l + 1 < q.cap := by omega
      simp [hc, Nat.mod_eq_of_lt this]
  unfold queueContents queuePop
  obtain ⟨n, hn⟩ : ∃ n, q.len = n + 1 := ⟨q.len - 1, by omega⟩
  rw [hn]
  simp only [List.range_succ_eq_map, List.map_cons, List.map_map, Nat.add_sub_cancel]
  congr 1
  · simp [Nat.mod_eq_of_lt hl]
  · apply List.map_congr_left
    intro i _
    simp only [Function.comp, hl'', Nat.mod_add_mod]
    congr 2
    omega

/-! ## Helper lemmas: key parsing -/

theorem lastIndexByte_eq_none (s : List Char) (c : Char) (h : c ∉ s) :
    lastIndexByte s c = none := by
  induction s with
  | nil => rfl
  | cons a rest ih =>
    have ha : ¬ (a = c) := fun hh => h (hh ▸ List.mem_cons_self a rest)
    have hr : c ∉ rest := fun hh => h (List.mem_cons_of_mem a hh)
    simp [lastIndexByte, ih hr, ha]

theorem lastIndexByte_append (p t : List Char) (c : Char) (h : c ∉ t) :
    lastIndexByte (p ++ c :: t) c = some p.length := by
  induction p with
  | nil => simp [lastIndexByte, lastIndexByte_eq_none t c h]
  | cons a rest ih => simp [lastIndexByte, ih]

theorem find?_range'_eq_some (p : Nat → Bool) (s n i : Nat)
    (h1 : s ≤ i) (h2 : i < s + n) (hp : p i = true)
    (hprev : ∀ j, s ≤ j → j < i → p j = false) :
    (List.range' s n).find? p = some i := by
  induction n generalizing s with
  | zero => omega
  | succ n ih =>
    rw [List.range'_succ]
    by_cases hsi : s = i
    · subst hsi
      simp [List.find?, hp]
    · have hslt : s < i := by omega
      have hps : p s = false := hprev s le_rfl hslt
      rw [List.find?]
      rw [hps]
      exact ih (s + 1) (by omega) (by omega) (fun j hj1 hj2 => hprev j (by omega) hj2)

theorem take_append_of_le (l1 l2 : List Char) (j : Nat) (h : j ≤ l1.length) :
    (l1 ++ l2).take j = l1.take j := by
  rw [List.take_append_eq_append_take]
  have : j - l1.length = 0 := by omega
  simp [this]

/-- `scanKinds` returns the index of the shortest registered prefix:
if position `i` (with `1 ≤ i ≤ |rear|`) holds a registered prefix and no
earlier position does, the scan stops exactly there. -/
theorem scanKinds_eq_some (reg : Registry) (rear : List Char) (i : Nat)
    (h1 : 1 ≤ i) (h2 : i ≤ rear.length) (hp : rear.take i ∈ reg)
    (hprev : ∀ j, 1 ≤ j → j < i → rear.take j ∉ reg) :
    scanKinds reg rear = some i := by
  unfold scanKinds
  apply find?_range'_eq_some _ 1 rear.length i h1 (by omega)
  · simpa using hp
  · intro j hj1 hj2
    simpa using hprev j hj1 hj2

/-- C3, counterexample: with the kinds `a` and `ab` registered and input
`abc`, the longest registered prefix of the last segment is `ab`
(length 2), but `Parse` selects the kind `a` — the first, hence
shortest, match of its scan loop — so the claim as stated is false. -/
theorem parse_longest_counterexample :
    longestRegKindLen regAB (divideKey ['a', 'b', 'c']).2 = some 2 ∧
    (divideKey ['a', 'b', 'c']).2.take 2 = ['a', 'b'] ∧
    (parse regAB ['a', 'b', 'c']).kind = ['a'] ∧
    (parse regAB ['a', 'b', 'c']).kind ≠ ['a', 'b'] := by
  decide

/-- C3 (amended): `Parse` selects as the key's kind the **shortest**
prefix of the last dotted segment that is present in the kind registry
(the scan runs `i = 1, 2, ...` and stops at the first registered
prefix), with the remainder of the segment becoming the identifier. -/
theorem parse_shortest_registered (reg : Registry) (s : List Char) (i : Nat)
    (h1 : 1 ≤ i) (h2 : i ≤ (divideKey s).2.length)
    (hp : (divideKey s).2.take i ∈ reg)
    (hprev : ∀ j, 1 ≤ j → j < i → (divideKey s).2.take j ∉ reg) :
    parse reg s =
      ⟨(divideKey s).1, (divideKey s).2.take i, (divideKey s).2.drop i⟩ := by
  unfold parse
  dsimp only
  rw [scanKinds_eq_some reg (divideKey s).2 i h1 h2 hp hprev]

/-- Witness for `parse_shortest_registered` at the input `abc` with the
kinds `a` and `ab` registered: the scan stops at `i = 1`. -/
theorem parse_shortest_registered_witness :
    1 ≤ 1 ∧ 1 ≤ (divideKey ['a', 'b', 'c']).2.length ∧
    (divideKey ['a', 'b', 'c']).2.take 1 ∈ regAB ∧
    parse regAB ['a', 'b', 'c'] =
      ⟨(divideKey ['a', 'b', 'c']).1, (divideKey ['a', 'b', 'c']).2.take 1,
        (divideKey ['a', 'b', 'c']).2.drop 1⟩ :=
  ⟨le_rfl, by decide, by decide,
    parse_shortest_registered regAB ['a', 'b', 'c'] 1 le_rfl (by decide) (by decide)
      (fun j hj1 hj2 => absurd (Nat.lt_of_lt_of_le hj2 hj1) (Nat.lt_irrefl j))⟩

/-- C4, counterexample: with the kinds `a` and `ab` registered, the key
with kind `ab` and identifier `c` has a registered kind, yet parsing its
canonical string `abc` yields the kind `a` and identifier `bc`. -/
theorem parse_roundtrip_counterexample :
    (Key.mk [] ['a', 'b'] ['c']).kind ∈ regAB ∧
    parse regAB (keyString ⟨[], ['a', 'b'], ['c']⟩) ≠ ⟨[], ['a', 'b'], ['c']⟩ := by
  decide

/-- C4 (amended): `Parse(k.String()) = k` for every key `k` whose kind
is registered, provided additionally that the kind is nonempty, neither
the kind nor the identifier contains the `.` delimiter, and no nonempty
proper prefix of the kind is itself registered (otherwise the scan stops
too early, as the counterexample shows). -/
theorem parse_keyString_eq (reg : Registry) (k : Key)
    (hreg : k.kind ∈ reg) (hk : k.kind ≠ [])
    (hkd : delim ∉ k.kind) (hid : delim ∉ k.identifier)
    (hmin : ∀ j, 1 ≤ j → j < k.kind.length → k.kind.take j ∉ reg) :
    parse reg (keyString k) = k := by
  have hkl : 0 < k.kind.length := List.length_pos.mpr hk
  have hrear : delim ∉ k.kind ++ k.identifier := by
    intro hmem
    rcases List.mem_append.mp hmem with hmem | hmem
    · exact hkd hmem
    · exact hid hmem
  have hdiv : divideKey (keyString k) = (k.parent, k.kind ++ k.identifier) := by
    by_cases hp : k.parent = []
    · unfold keyString divideKey
      rw [if_neg hk, if_pos hp, lastIndexByte_eq_none _ _ hrear, hp]
    · unfold keyString divideKey
      rw [if_neg hk, if_neg hp,
        lastIndexByte_append k.parent (k.kind ++ k.identifier) delim hrear]
      have htake : (k.parent ++ delim :: (k.kind ++ k.identifier)).take k.parent.length
          = k.parent := List.take_left k.parent _
      have hdrop : (k.parent ++ delim :: (k.kind ++ k.identifier)).drop (k.parent.length + 1)
          = k.kind ++ k.identifier := by
        rw [List.append_cons k.parent delim (k.kind ++ k.identifier)]
        have hlen : k.parent.length + 1 = (k.parent ++ [delim]).length := by
          simp
        rw [hlen, List.drop_left]
      dsimp only
      rw [htake, hdrop]
  have hscan : scanKinds reg (k.kind ++ k.identifier) = some k.kind.length := by
    apply scanKinds_eq_some
    · omega
    · simp
    · rw [List.take_left]
      exact hreg
    · intro j hj1 hj2
      rw [take_append_of_le k.kind k.identifier j (by omega)]
      exact hmin j hj1 hj2
  unfold parse
  rw [hdiv]
  simp only
  rw [hscan]
  simp [List.take_left, List.drop_left]

/-- Witness for `parse_keyString_eq` at the key with parent `x.y`, kind
`prj`, identifier `A`, with only `prj` registered. -/
theorem parse_keyString_eq_witness :
    (Key.mk ['x', '.', 'y'] ['p', 'r', 'j'] ['A']).kind ∈ [['p', 'r', 'j']] ∧
    parse [['p', 'r', 'j']] (keyString ⟨['x', '.', 'y'], ['p', 'r', 'j'], ['A']⟩)
      = ⟨['x', '.', 'y'], ['p', 'r', 'j'], ['A']⟩ :=
  ⟨by decide,
    parse_keyString_eq [['p', 'r', 'j']] ⟨['x', '.', 'y'], ['p', 'r', 'j'], ['A']⟩
      (by decide) (by decide) (by decide) (by decide)
      (by
        intro j hj1 hj2
        have h3 : j < 3 := by simpa using hj2
        interval_cases j <;> decide)⟩

/-- C1, counterexample: on a closed node whose cache holds `k0` with
state `exist`, `get` succeeds and returns the cached attributes instead
of failing with `Closed` — `node.get` never consults the `closed` flag,
so the claim is false for `get` (and likewise `getMulti`). -/
theorem closed_get_counterexample :
    stClosed.closed = true ∧
    nodeGet stClosed k0 (.ok []) [] [] = .done stClosed (.ok avs0) false := by
  exact ⟨rfl, rfl⟩

/-- C1 (amended): after `close()` the four mutating operations —
insert, upsert, update, delete — fail with the `Closed` error for every
key, value and environment, leaving the node state unchanged; `get` and
`getMulti` perform no `closed` check, and the value they return is
entirely independent of the `closed` flag. -/
theorem closed_semantics (st : NodeState) (key : Key) (value : AVMap)
    (remote : Except GoErr AVMap) (reacq : CacheMap) (snaps : List CacheMap)
    (h : st.closed = true) :
    nodeInsert st key value remote reacq snaps = .done st (some newErrClosed) false false ∧
    nodeUpsert st key value = .done st (some newErrClosed) false false ∧
    nodeUpdate st key value remote reacq snaps = .done st (some newErrClosed) false false ∧
    nodeDelete st key = .done st (some newErrClosed) false false ∧
    (∀ b : Bool, getResultValue (nodeGet { st with closed := b } key remote reacq snaps) =
      getResultValue (nodeGet st key remote reacq snaps)) ∧
    (∀ (b : Bool) (keys : List Key) (fetched : Except GoErr (List (Key × AVMap))),
      (nodeGetMulti { st with closed := b } keys fetched reacq).2 =
      (nodeGetMulti st keys fetched reacq).2) := by
  refine ⟨by simp [nodeInsert, h], by simp [nodeUpsert, h],
    by simp [nodeUpdate, h], by simp [nodeDelete, h], ?_, ?_⟩
  · intro b
    cases hg : getOrSaveCache key remote reacq st.conds (st.cache :: snaps) with
    | ok cache' cs' v rc =>
      by_cases hv : v.state = .notExist <;> simp [nodeGet, hg, getResultValue, hv]
    | fail cache' cs' e rc => simp [nodeGet, hg, getResultValue]
    | blocked cs' => simp [nodeGet, hg, getResultValue]
  · intro b keys fetched
    have hsame : getOrSaveCacheMulti { st with closed := b } keys fetched reacq
        = getOrSaveCacheMulti st keys fetched reacq := rfl
    cases hg : getOrSaveCacheMulti st keys fetched reacq with
    | error e => simp [nodeGetMulti, hsame, hg]
    | ok pr => simp [nodeGetMulti, hsame, hg]

/-- Witness for `closed_semantics` at the concrete closed node. -/
theorem closed_semantics_witness :
    stClosed.closed = true ∧
    nodeInsert stClosed k0 avs0 (.ok []) [] [] = .done stClosed (some newErrClosed) false false ∧
    nodeUpsert stClosed k0 avs0 = .done stClosed (some newErrClosed) false false ∧
    nodeUpdate stClosed k0 avs0 (.ok []) [] [] = .done stClosed (some newErrClosed) false false ∧
    nodeDelete stClosed k0 = .done stClosed (some newErrClosed) false false :=
  ⟨rfl, (closed_semantics stClosed k0 avs0 (.ok []) [] [] rfl).1,
    (closed_semantics stClosed k0 avs0 (.ok []) [] [] rfl).2.1,
    (closed_semantics stClosed k0 avs0 (.ok []) [] [] rfl).2.2.1,
    (closed_semantics stClosed k0 avs0 (.ok []) [] [] rfl).2.2.2.1⟩

/-- C2: on a node whose cache holds `k0` with state `notExist`, the
per-node `get` fails with `ItemNotExisted`, but `Store.DoesItemExist`
returns `(false, that error)` rather than `(false, nil)`: the type
assertion `err.(ErrItemNotExisted)` tests for the value type while
every constructor returns the pointer type `*ErrItemNotExisted`, so the
`return false, nil` branch is unreachable. -/
theorem doesItemExist_notExisted_bug :
    nodeGet stNotExist k0 (.ok []) [] [] =
      .done stNotExist (.error (newErrItemNotExisted k0)) false ∧
    isValueErrItemNotExisted (newErrItemNotExisted k0) = false ∧
    doesItemExist stNotExist k0 (.ok []) [] [] =
      .done stNotExist false (some (newErrItemNotExisted k0)) ∧
    ExistResult.done stNotExist false (some (newErrItemNotExisted k0)) ≠
      .done stNotExist false none := by
  exact ⟨rfl, rfl, rfl, by decide⟩

theorem execBatch_fails_at (exec : Mutation → Option GoErr) (batch : List Mutation)
    (i : Nat) (e : GoErr) (hi : i < batch.length)
    (hok : ∀ j, j < i → exec (batch.getD j default) = none)
    (hfail : exec (batch.getD i default) = some e) :
    execBatch exec batch = some (batch.drop i, e) := by
  induction batch generalizing i with
  | nil => simp at hi
  | cons m rest ih =>
    cases i with
    | zero =>
      have hm : exec m = some e := by simpa using hfail
      simp [execBatch, hm]
    | succ i' =>
      have h0 : exec m = none := by simpa using hok 0 (Nat.succ_pos i')
      have hrec : execBatch exec rest = some (rest.drop i', e) := by
        apply ih
        · simpa using hi
        · intro j hj
          simpa using hok (j + 1) (by omega)
        · simpa using hfail
      simp [execBatch, h0, hrec]

/-- C5, counterexample: with an execute oracle failing the single
mutation `m0` and an empty queue at crash time, the worker's panic
payload is the bare `execute` error — it carries no mutations, refuting
the part of the claim that says the unrecoverable condition carries the
failed mutation and the remaining batch (the source runs `panic(err)`;
the drained slice stays in a local variable). -/
theorem flush_panic_counterexample :
    flushCrash execFail [m0] q0 =
      some { closedAfter := true, drained := [m0],
             payload := .errOnly newErrDynamoDBException } ∧
    payloadCarriesMuts (.errOnly newErrDynamoDBException) = false := by
  exact ⟨rfl, rfl⟩

/-- C5 (amended): when `execute` fails on the `i`-th mutation of the
batch (all earlier ones succeeding), the worker marks the node closed,
drains the remaining queue onto the unexecuted remainder of the batch
(failed mutation first, in order), and panics with a payload that
carries only the `execute` error — not the lost mutations, which stay
in a local slice. -/
theorem flush_failure_semantics (exec : Mutation → Option GoErr) (batch : List Mutation)
    (qAt : Queue) (i : Nat) (e : GoErr) (hi : i < batch.length)
    (hok : ∀ j, j < i → exec (batch.getD j default) = none)
    (hfail : exec (batch.getD i default) = some e) :
    flushCrash exec batch qAt =
      some { closedAfter := true,
             drained := batch.drop i ++ queueContents qAt,
             payload := .errOnly e } ∧
    payloadCarriesMuts (PanicPayload.errOnly e) = false := by
  refine ⟨?_, rfl⟩
  simp [flushCrash, execBatch_fails_at exec batch i e hi hok hfail]

/-- Witness for `flush_failure_semantics`: the oracle fails at index 0
of the batch `[m0]` with an empty queue. -/
theorem flush_failure_semantics_witness :
    (0 : Nat) < [m0].length ∧
    execFail ([m0].getD 0 default) = some newErrDynamoDBException ∧
    flushCrash execFail [m0] q0 =
      some { closedAfter := true, drained := [m0].drop 0 ++ queueContents q0,
             payload := .errOnly newErrDynamoDBException } := by
  refine ⟨by decide, rfl, ?_⟩
  exact (flush_failure_semantics execFail [m0] q0 0 newErrDynamoDBException (by decide)
    (fun j hj => absurd hj (Nat.not_lt_zero j)) rfl).1

/-- C6: after the remote GET succeeds in `getOrSaveCache` (entered on a
cache miss), the new entry is `notExist` for an empty response and
`exist` with the returned attributes otherwise; it is stored and
returned exactly when the slot for the key is still absent or `Busy` at
re-acquisition, while a non-`Busy` entry written meanwhile by a
concurrent mutator is returned instead, the fetched entry being
discarded and the cache left unchanged. -/
theorem getOrSaveCache_after_success (key : Key) (item : AVMap) (reacq c : CacheMap)
    (cs : CondSet) (rest : List CacheMap) (hmiss : cacheGet c key = none) :
    ((cacheGet reacq key = none ∨ (∃ cv, cacheGet reacq key = some cv ∧ cv.state = .busy)) →
      getOrSaveCache key (.ok item) reacq cs (c :: rest) =
        .ok (cacheAdd reacq key
              (if item.isEmpty then { state := .notExist } else { state := .exist, avs := item }))
          cs (if item.isEmpty then { state := .notExist } else { state := .exist, avs := item })
          true) ∧
    (∀ cv, cacheGet reacq key = some cv → cv.state ≠ .busy →
      getOrSaveCache key (.ok item) reacq cs (c :: rest) = .ok reacq cs cv true) := by
  constructor
  · rintro (hnone | ⟨cv, hcv, hbusy⟩)
    · simp [getOrSaveCache, hmiss, gosAfterMiss, hnone]
    · simp [getOrSaveCache, hmiss, gosAfterMiss, hcv, hbusy]
  · intro cv hcv hnb
    simp [getOrSaveCache, hmiss, gosAfterMiss, hcv, hnb]

/-- Witness for `getOrSaveCache_after_success`: a cold cache, a nonempty
response for `k0`, and a slot still absent at re-acquisition. -/
theorem getOrSaveCache_after_success_witness :
    cacheGet [] k0 = none ∧
    getOrSaveCache k0 (.ok avs0) [] cs0 [[]] =
      .ok (cacheAdd [] k0 { state := .exist, avs := avs0 }) cs0
        { state := .exist, avs := avs0 } true :=
  ⟨rfl, (getOrSaveCache_after_success k0 avs0 [] [] cs0 [] rfl).1 (Or.inl rfl)⟩

/-- C7: on an open node whose cached entry for the key has state
`exist`, `insert` fails with `ItemExisted` without issuing a
backing-store call, without signalling the flush worker, and with the
node state — cache, queue, condition set — unchanged (no mutation is
enqueued). -/
theorem insert_cached_exist (st : NodeState) (key : Key) (value : AVMap)
    (remote : Except GoErr AVMap) (reacq : CacheMap) (snaps : List CacheMap)
    (cv : CacheValue) (hclosed : st.closed = false)
    (hhit : cacheGet st.cache key = some cv) (hex : cv.state = .exist) :
    nodeInsert st key value remote reacq snaps =
      .done st (some (newErrItemExisted key)) false false := by
  obtain ⟨cl, ca, qu, co, th⟩ := st
  subst hclosed
  simp only at hhit
  simp [nodeInsert, getOrSaveCache, hhit, hex]

/-- Witness for `insert_cached_exist` at the node caching `k0` as
`exist`. -/
theorem insert_cached_exist_witness :
    stExist.closed = false ∧
    cacheGet stExist.cache k0 = some ⟨.exist, avs0⟩ ∧
    nodeInsert stExist k0 avs0 (.ok []) [] [] =
      .done stExist (some (newErrItemExisted k0)) false false :=
  ⟨rfl, rfl,
    insert_cached_exist stExist k0 avs0 (.ok []) [] [] ⟨.exist, avs0⟩ rfl rfl rfl⟩

/-- C8: when the condition set already holds entries for capacity-many
distinct keys, `waitAndSignal` on a key not in the set returns false
without blocking and the `Busy` loop of `getOrSaveCache` fails with
`TooManyRequests` (no remote call); `waitAndSignal` on a key already
present increments its wait count and blocks even at capacity — with no
further scheduler activity the caller stays parked with the incremented
count in place. -/
theorem condSet_capacity_semantics (cs : CondSet) (key : Key) :
    (cs.entries.length = cs.cap → lookupKey cs.entries key = none →
      waitAndSignalEnter cs key = none ∧
      ∀ (c : CacheMap) (cv : CacheValue) (remote : Except GoErr AVMap)
        (reacq : CacheMap) (rest : List CacheMap),
        cacheGet c key = some cv → cv.state = .busy →
        getOrSaveCache key remote reacq cs (c :: rest) =
          .fail c cs newErrTooManyRequests false) ∧
    (∀ cnt, lookupKey cs.entries key = some cnt →
      waitAndSignalEnter cs key =
        some { cs with entries := setCount cs.entries key (cnt + 1) } ∧
      ∀ (c : CacheMap) (cv : CacheValue) (remote : Except GoErr AVMap)
        (reacq : CacheMap),
        cacheGet c key = some cv → cv.state = .busy →
        getOrSaveCache key remote reacq cs [c] =
          .blocked { cs with entries := setCount cs.entries key (cnt + 1) }) := by
  constructor
  · intro hfull habs
    have he : waitAndSignalEnter cs key = none := by
      simp [waitAndSignalEnter, habs, condSetFull, hfull]
    refine ⟨he, ?_⟩
    intro c cv remote reacq rest hc hbusy
    simp [getOrSaveCache, hc, hbusy, he]
  · intro cnt hmem
    have he : waitAndSignalEnter cs key =
        some { cs with entries := setCount cs.entries key (cnt + 1) } := by
      simp [waitAndSignalEnter, hmem]
    refine ⟨he, ?_⟩
    intro c cv remote reacq hc hbusy
    simp [getOrSaveCache, hc, hbusy, he]

/-- Witness for `condSet_capacity_semantics`: the set `csFullK0` is at
capacity 1 with one waiter on `k0`; a novel key `k1` is refused and the
caller fails with `TooManyRequests`, while `k0` itself is incremented. -/
theorem condSet_capacity_semantics_witness :
    csFullK0.entries.length = csFullK0.cap ∧
    waitAndSignalEnter csFullK0 k1 = none ∧
    getOrSaveCache k1 (.ok []) [] csFullK0 [[(k1, ⟨.busy, []⟩)]] =
      .fail [(k1, ⟨.busy, []⟩)] csFullK0 newErrTooManyRequests false ∧
    waitAndSignalEnter csFullK0 k0 = some ⟨[(k0, 2)], 1⟩ :=
  ⟨rfl,
    ((condSet_capacity_semantics csFullK0 k1).1 rfl (by decide)).1,
    ((condSet_capacity_semantics csFullK0 k1).1 rfl (by decide)).2
      [(k1, ⟨.busy, []⟩)] ⟨.busy, []⟩ (.ok []) [] [] (by decide) rfl,
    ((condSet_capacity_semantics csFullK0 k0).2 1 (by decide)).1⟩

/-- C9: `mutate` blocks exactly while the queue is full; otherwise it
appends the mutation to the queue contents (FIFO push), overwrites the
cache entry for the key — `exist` with the mutation's attributes for
insert/upsert/update, `notExist` for delete — touching no other key,
and signals the flush worker exactly when the queue length after the
push has reached the flush threshold; the `closed` flag and the
condition set are untouched. -/
theorem mutate_semantics (st : NodeState) (key : Key) (m : Mutation)
    (hwf : QueueWF st.queue) :
    (queueFull st.queue = true → nodeMutate st key m = none) ∧
    (queueFull st.queue = false →
      ∃ st' sig, nodeMutate st key m = some (st', sig) ∧
        st'.queue = queuePush st.queue m ∧
        queueContents st'.queue = queueContents st.queue ++ [m] ∧
        cacheGet st'.cache key = some (match m.op with
          | .delete => { state := .notExist }
          | _ => ({ state := .exist, avs := m.avs } : CacheValue)) ∧
        (∀ k', k' ≠ key → cacheGet st'.cache k' = cacheGet st.cache k') ∧
        (sig = true ↔ st.threshold ≤ st.queue.len + 1) ∧
        st'.closed = st.closed ∧ st'.conds = st.conds) := by
  constructor
  · intro hf
    simp [nodeMutate, hf]
  · intro hf
    have hlt : st.queue.len < st.queue.cap := by
      have hle := hwf.2.1
      have hne : ¬ (st.queue.len = st.queue.cap) := by
        simpa [queueFull] using hf
      omega
    obtain ⟨mop, mavs⟩ := m
    cases mop with
    | insert =>
      refine ⟨{ st with
                queue := queuePush st.queue ⟨.insert, mavs⟩
                cache := cacheAdd st.cache key { state := .exist, avs := mavs } },
              decide (st.threshold ≤ st.queue.len + 1), ?_, rfl,
              queueContents_push st.queue _ hwf hlt,
              cacheGet_cacheAdd_self st.cache key _,
              fun k' hk' => cacheGet_cacheAdd_ne st.cache key k' _ hk',
              ?_, rfl, rfl⟩
      · simp [nodeMutate, hf, queuePush]
      · simp [nodeMutate, hf, queuePush]
    | upsert =>
      refine ⟨{ st with
                queue := queuePush st.queue ⟨.upsert, mavs⟩
                cache := cacheAdd st.cache key { state := .exist, avs := mavs } },
              decide (st.threshold ≤ st.queue.len + 1), ?_, rfl,
              queueContents_push st.queue _ hwf hlt,
              cacheGet_cacheAdd_self st.cache key _,
              fun k' hk' => cacheGet_cacheAdd_ne st.cache key k' _ hk',
              ?_, rfl, rfl⟩
      · simp [nodeMutate, hf, queuePush]
      · simp [nodeMutate, hf, queuePush]
    | update =>
      refine ⟨{ st with
                queue := queuePush st.queue ⟨.update, mavs⟩
                cache := cacheAdd st.cache key { state := .exist, avs := mavs } },
              decide (st.threshold ≤ st.queue.len + 1), ?_, rfl,
              queueContents_push st.queue _ hwf hlt,
              cacheGet_cacheAdd_self st.cache key _,
              fun k' hk' => cacheGet_cacheAdd_ne st.cache key k' _ hk',
              ?_, rfl, rfl⟩
      · simp [nodeMutate, hf, queuePush]
      · simp [nodeMutate, hf, queuePush]
    | delete =>
      refine ⟨{ st with
                queue := queuePush st.queue ⟨.delete, mavs⟩
                cache := cacheAdd st.cache key { state := .notExist } },
              decide (st.threshold ≤ st.queue.len + 1), ?_, rfl,
              queueContents_push st.queue _ hwf hlt,
              cacheGet_cacheAdd_self st.cache key _,
              fun k' hk' => cacheGet_cacheAdd_ne st.cache key k' _ hk',
              ?_, rfl, rfl⟩
      · simp [nodeMutate, hf, queuePush]
      · simp [nodeMutate, hf, queuePush]

/-- Witness for `mutate_semantics` on a well-formed non-full queue. -/
theorem mutate_semantics_witness :
    QueueWF stExist.queue ∧ queueFull stExist.queue = false ∧
    nodeMutate stExist k0 m0 ≠ none := by
  refine ⟨by decide, by decide, ?_⟩
  obtain ⟨st', sig, h1, -, -, -, -, -, -, -⟩ :=
    (mutate_semantics stExist k0 m0 (by decide)).2 (by decide)
  simp [h1]

/-- C10: the ring queue refines a bounded FIFO list: under the queue
invariants (array length = capacity, `len ≤ cap`, heads in `[0, cap)`,
write head `len` past the read head), running any sequence of pushes
and pops preserves the invariants and produces exactly the queue
contents and pop outputs of the list queue that appends pushes at the
tail and pops from the head — so pops return mutations in exactly push
order. -/
theorem ring_queue_fifo (ops : List QOp) (q : Queue) (h : QueueWF q) (hc : 0 < q.cap) :
    QueueWF (runRing q ops).1 ∧
    queueContents (runRing q ops).1 = (runList q.cap (queueContents q) ops).1 ∧
    (runRing q ops).2 = (runList q.cap (queueContents q) ops).2 := by
  induction ops generalizing q with
  | nil => exact ⟨h, rfl, rfl⟩
  | cons op rest ih =>
    cases op with
    | qpush m =>
      by_cases hf : queueFull q = true
      · have hlen : (queueContents q).length = q.cap := by
          rw [queueContents_length]
          simpa [queueFull] using hf
        have hr : runRing q (.qpush m :: rest) = (q, []) := by
          simp [runRing, hf]
        have hl : runList q.cap (queueContents q) (.qpush m :: rest) = (queueContents q, []) := by
          simp [runList, hlen]
        rw [hr, hl]
        exact And.intro h (And.intro rfl rfl)
      · have hf' : queueFull q = false := by simpa using hf
        have hlt : q.len < q.cap := by
          have hle := h.2.1
          have hne : ¬ (q.len = q.cap) := by simpa [queueFull] using hf'
          omega
        have hlen : ¬ ((queueContents q).length = q.cap) := by
          rw [queueContents_length]
          omega
        have hwf' := queueWF_push q m h hlt
        have hcont := queueContents_push q m h hlt
        have ihh := ih (queuePush q m) hwf' hc
        rw [queuePush_cap] at ihh
        rw [hcont] at ihh
        have hr : runRing q (.qpush m :: rest) = runRing (queuePush q m) rest := by
          simp [runRing, hf]
        have hl : runList q.cap (queueContents q) (.qpush m :: rest)
            = runList q.cap (queueContents q ++ [m]) rest := by
          simp [runList, hlen]
        rw [hr, hl]
        exact ihh
    | qpop =>
      by_cases he : queueEmpty q = true
      · have hz : q.len = 0 := by simpa [queueEmpty] using he
        have hnil : queueContents q = [] := by
          unfold queueContents
          rw [hz]
          rfl
        have hr : runRing q (.qpop :: rest) = (q, []) := by
          simp [runRing, he]
        have hl : runList q.cap (queueContents q) (.qpop :: rest) = (queueContents q, []) := by
          rw [hnil]
          simp [runList]
        rw [hr, hl]
        exact And.intro h (And.intro rfl rfl)
      · have hlen : 0 < q.len := by
          have : ¬ (q.len = 0) := by simpa [queueEmpty] using he
          omega
        have hwf' := queueWF_pop q h hlen
        have hcont := queueContents_pop q h hlen
        have ihh := ih (queuePop q).2 hwf' hc
        have hpc : (queuePop q).2.cap = q.cap := rfl
        rw [hpc] at ihh
        have hr : runRing q (.qpop :: rest) =
            ((runRing (queuePop q).2 rest).1,
              (queuePop q).1 :: (runRing (queuePop q).2 rest).2) := by
          simp [runRing, he]
        have hl : runList q.cap (queueContents q) (.qpop :: rest) =
            ((runList q.cap (queueContents (queuePop q).2) rest).1,
              (queuePop q).1 :: (runList q.cap (queueContents (queuePop q).2) rest).2) := by
          rw [hcont]
          simp [runList]
        rw [hr, hl]
        exact And.intro ihh.1 (And.intro ihh.2.1 (by rw [ihh.2.2]))

/-- Witness for `ring_queue_fifo`: two pushes then two pops on the empty
capacity-4 queue. -/
theorem ring_queue_fifo_witness :
    QueueWF q0 ∧ 0 < q0.cap ∧
    (runRing q0 [QOp.qpush m0, QOp.qpush ⟨.delete, []⟩, QOp.qpop, QOp.qpop]).2 =
      (runList q0.cap (queueContents q0)
        [QOp.qpush m0, QOp.qpush ⟨.delete, []⟩, QOp.qpop, QOp.qpop]).2 :=
  ⟨by decide, by decide,
    (ring_queue_fifo [QOp.qpush m0, QOp.qpush ⟨.delete, []⟩, QOp.qpop, QOp.qpop] q0
      (by decide) (by decide)).2.2⟩

end Quickstore
